import Mathlib

/-!
Verification development for the progress-record storage and analytics
subsystem of the en-practice extension.

The definitions below are a shallow embedding of the TypeScript sources:

* `src/types.ts` — the data model (`WordRecord`, `ChapterRecord`,
  `DictRecord`, `DayWordRecord`, `DayRecord`, `createDefaultDictRecord`).
* `src/shardedRecordManager.ts` (globalState variant) — the record store
  (`loadMainRecord`, `saveMainRecord`, `loadChapterRecord`,
  `saveChapterRecord`, `recordWordPractice`, `recordChapterCompletion`,
  `updateCurrentPosition`, `updateChapterLoop`).
* the `DayRecordManager` (globalState, full-event variant) — the daily
  activity log (`createDayRecordFile`, `updateTotalRecords`,
  `recordWordPractice`, `setAnalysisGenerated`).
* `src/dayAnalysisManager.ts` — the analysis aggregator
  (`generateAnalysis`, `processRecordData`) together with the older
  `checkAndGenerateMissingAnalysis` scanner.

The host key-value store (`vscode` globalState) is modelled as a record of
partial maps, one field per key family (the key builders
`getMainRecordKey`, `getChapterRecordKey`, `getDayRecordKey`,
`getTotalRecordKey`, `getAnalysisKey` are injective and their images are
disjoint, so the store splits into these families).  JavaScript object
maps keyed by strings are modelled as insertion-ordered association
lists, matching `Object.values` / `Object.keys` enumeration order.
Timestamps (`new Date().toISOString()`) and the current date are passed
in explicitly as `now` / `date` arguments.  JavaScript numbers holding
counters are modelled as `Nat`; the correct-rate quotient is modelled as
a rational number.
-/

/-- Practice mode: `'normal' | 'dictation'` from `types.ts`. -/
inductive PracticeMode where
  | normal
  | dictation
deriving DecidableEq, Repr

/-- Per-word practice record, from `types.ts` (`WordRecord`). -/
structure WordRecord where
  word : String
  practiceCount : Nat
  correctCount : Nat
  errorCount : Nat
  lastPracticeTime : String
  correctRate : ℚ
deriving DecidableEq, Repr

/-- Per-chapter shard, from `types.ts` (`ChapterRecord`).  The
`wordRecords` object is an insertion-ordered association list. -/
structure ChapterRecord where
  chapterNumber : Nat
  totalWordsInChapter : Nat
  completedWordsCount : Nat
  chapterCompletionCount : Nat
  lastPracticeTime : String
  wordRecords : List (String × WordRecord)
deriving DecidableEq, Repr

/-- Dictionary main record, from `types.ts` (`DictRecord`). -/
structure DictRecord where
  dictId : String
  dictName : String
  totalWords : Nat
  totalChapters : Nat
  currentChapter : Nat
  currentWordIndex : Nat
  practiceMode : PracticeMode
  chapterLoop : Bool
  lastPracticeTime : String
  createdTime : String
deriving DecidableEq, Repr

/-- One daily practice event, from `types.ts` (`DayWordRecord`). -/
structure DayWordRecord where
  word : String
  translation : String
  usphone : String
  ukphone : String
  dictId : String
  dictName : String
  chapterNumber : Nat
  practiceTime : String
  isCorrect : Bool
deriving DecidableEq, Repr

/-- Daily record (full-event variant), from `types.ts` (`DayRecord`). -/
structure DayRecord where
  date : String
  words : List DayWordRecord
deriving DecidableEq, Repr

/-- One entry of the day index (`totalRecords`):
`{ date, analysisGenerated }`. -/
structure DayIndexEntry where
  date : String
  analysisGenerated : Bool
deriving DecidableEq, Repr

/-- Word details fetched from the word-book loader
(`DayRecordManager.getWordDetails`), an external collaborator; the fetched
triple is passed in explicitly. -/
structure WordDetails where
  translation : String
  usphone : String
  ukphone : String
deriving DecidableEq, Repr

/-- FIXED_WORDS_PER_CHAPTER from `types.ts`. -/
def FIXED_WORDS_PER_CHAPTER : Nat := 10

/-- `Math.ceil(a / b)` on non-negative integers. -/
def ceilDiv (a b : Nat) : Nat := (a + b - 1) / b

/-- `createDefaultDictRecord` from `types.ts`. -/
def createDefaultDictRecord (dictId dictName : String) (totalWords : Nat)
    (practiceMode : PracticeMode) (now : String) : DictRecord :=
  { dictId := dictId
    dictName := dictName
    totalWords := totalWords
    totalChapters := ceilDiv totalWords FIXED_WORDS_PER_CHAPTER
    currentChapter := 1
    currentWordIndex := 0
    practiceMode := practiceMode
    chapterLoop := true
    lastPracticeTime := now
    createdTime := now }

/-!
The host key-value store.  Each field is one key family of the
`enpractice.*` namespace:

* `mainRecords d m`      — key `enpractice.records.<d>.<m>.main`
* `chapterRecords d n m` — key `enpractice.records.<d>.<m>.ch<n>`
* `dayRecords date m`    — key `enpractice.dayRecords.<date>[_dictation]`
* `totalRecords`         — key `enpractice.dayRecords.totalRecords`
* `analyses date`        — key `enpractice.dayRecordsAnalyze.<date>_analysis`
-/

/-- Per-dictionary per-mode counters inside an analysis summary. -/
structure DictModeStat where
  chapters : Nat
  words : Nat
deriving DecidableEq, Repr

/-- Per-dictionary entry of the analysis summary. -/
structure DictInfo where
  dictId : String
  dictName : String
  totalWordsInDict : Nat
  normalMode : DictModeStat
  dictationMode : DictModeStat
deriving DecidableEq, Repr

/-- The summary block of an analysis report. -/
structure AnalysisSummary where
  totalDicts : Nat
  totalChapters : Nat
  totalWords : Nat
  dicts : List DictInfo
deriving DecidableEq, Repr

/-- A processed (enriched) daily word entry inside an analysis report. -/
structure ProcessedWord where
  word : String
  practiceCount : Nat
  correctCount : Nat
  errorCount : Nat
  correctRate : ℚ
  lastPracticeTime : String
deriving DecidableEq, Repr

/-- A processed chapter inside an analysis report. -/
structure ProcessedChapter where
  chapterNumber : Nat
  wordCount : Nat
  words : List ProcessedWord
deriving DecidableEq, Repr

/-- A processed dictionary inside an analysis report; `chapters` is keyed
by the decimal string of the chapter number, insertion ordered. -/
structure ProcessedDict where
  dictId : String
  dictName : String
  chapters : List (String × ProcessedChapter)
deriving DecidableEq, Repr

/-- The per-mode part of an analysis report (`processRecordData` result). -/
structure ProcessedRecord where
  dicts : List (String × ProcessedDict)
deriving DecidableEq, Repr

/-- The persisted analysis report (`analysisData` in
`DayAnalysisManager.generateAnalysis`). -/
structure AnalysisData where
  date : String
  generatedAt : String
  normalMode : Option ProcessedRecord
  dictationMode : Option ProcessedRecord
  summary : AnalysisSummary
deriving DecidableEq, Repr

/-- The host `globalState` store, split into the key families used by the
record subsystem. -/
structure GState where
  mainRecords : String → PracticeMode → Option DictRecord
  chapterRecords : String → Nat → PracticeMode → Option ChapterRecord
  dayRecords : String → PracticeMode → Option DayRecord
  totalRecords : Option (List DayIndexEntry)
  analyses : String → Option AnalysisData

/-- The empty store: no key has ever been written. -/
def GState.empty : GState :=
  { mainRecords := fun _ _ => none
    chapterRecords := fun _ _ _ => none
    dayRecords := fun _ _ => none
    totalRecords := none
    analyses := fun _ => none }

namespace ShardedRecordManager

/-- `saveMainRecord`: unconditional overwrite at the key built from the
record's own `dictId` and `practiceMode`. -/
def saveMainRecord (s : GState) (record : DictRecord) : GState :=
  { s with mainRecords := fun d m =>
      if d = record.dictId ∧ m = record.practiceMode then some record
      else s.mainRecords d m }

/-- `loadMainRecord`: return the stored record, self-healing
`totalWords` / `totalChapters` on mismatch; create and persist a default
record when absent.  Returns the record together with the store after the
call. -/
def loadMainRecord (s : GState) (dictId dictName : String) (totalWords : Nat)
    (practiceMode : PracticeMode) (now : String) : DictRecord × GState :=
  match s.mainRecords dictId practiceMode with
  | some record =>
      if record.totalWords ≠ totalWords then
        let record' := { record with
          totalWords := totalWords
          totalChapters := ceilDiv totalWords FIXED_WORDS_PER_CHAPTER }
        (record', saveMainRecord s record')
      else
        (record, s)
  | none =>
      let newRecord := createDefaultDictRecord dictId dictName totalWords practiceMode now
      (newRecord, saveMainRecord s newRecord)

/-- `saveChapterRecord`: unconditional overwrite at
`(dictId, record.chapterNumber, practiceMode)`. -/
def saveChapterRecord (s : GState) (dictId : String) (record : ChapterRecord)
    (practiceMode : PracticeMode) : GState :=
  { s with chapterRecords := fun d n m =>
      if d = dictId ∧ n = record.chapterNumber ∧ m = practiceMode then some record
      else s.chapterRecords d n m }

/-- The default chapter record returned by `loadChapterRecord` when the
shard is absent. -/
def defaultChapterRecord (chapterNumber : Nat) (now : String) : ChapterRecord :=
  { chapterNumber := chapterNumber
    totalWordsInChapter := 10
    completedWordsCount := 0
    chapterCompletionCount := 0
    lastPracticeTime := now
    wordRecords := [] }

/-- `loadChapterRecord`: return the stored shard, or a default record when
absent; the store is returned unchanged (the function body performs no
`update`). -/
def loadChapterRecord (s : GState) (dictId : String) (chapterNumber : Nat)
    (practiceMode : PracticeMode) (now : String) : ChapterRecord × GState :=
  match s.chapterRecords dictId chapterNumber practiceMode with
  | some record => (record, s)
  | none => (defaultChapterRecord chapterNumber now, s)

/-- The fresh word record created when a word is practiced for the first
time in a shard. -/
def mkFreshWordRecord (word now : String) : WordRecord :=
  { word := word
    practiceCount := 0
    correctCount := 0
    errorCount := 0
    lastPracticeTime := now
    correctRate := 0 }

/-- One practice update of a word record: bump the counters, stamp the
time, recompute the rate (`correctCount / practiceCount * 100`). -/
def updateWordRecord (wr : WordRecord) (isCorrect : Bool) (now : String) : WordRecord :=
  let practiceCount := wr.practiceCount + 1
  let correctCount := if isCorrect then wr.correctCount + 1 else wr.correctCount
  let errorCount := if isCorrect then wr.errorCount else wr.errorCount + 1
  { word := wr.word
    practiceCount := practiceCount
    correctCount := correctCount
    errorCount := errorCount
    lastPracticeTime := now
    correctRate :=
      if 0 < practiceCount then (correctCount : ℚ) / (practiceCount : ℚ) * 100 else 0 }

/-- `Math.min(...correctCounts)` over the words with `practiceCount > 0`,
`0` when no word qualifies (`correctCounts.length > 0 ? ... : 0`). -/
def chapterMinCorrect (wordRecords : List (String × WordRecord)) : Nat :=
  let correctCounts :=
    (wordRecords.filter (fun p => 0 < p.2.practiceCount)).map (fun p => p.2.correctCount)
  match correctCounts with
  | [] => 0
  | c :: cs => cs.foldl Nat.min c

/-- The in-memory shard mutation performed by `recordWordPractice` (steps
2–4 of the write path): ensure the word record exists, update it, then
recompute `completedWordsCount` and `chapterCompletionCount` over the
whole shard. -/
def applyPractice (cr : ChapterRecord) (word : String) (isCorrect : Bool)
    (now : String) : ChapterRecord :=
  let records0 :=
    if (cr.wordRecords.lookup word).isSome then cr.wordRecords
    else cr.wordRecords ++ [(word, mkFreshWordRecord word now)]
  let records1 := records0.map fun p =>
    if p.1 = word then (p.1, updateWordRecord p.2 isCorrect now) else p
  { chapterNumber := cr.chapterNumber
    totalWordsInChapter := 10
    completedWordsCount := (records1.filter (fun p => 0 < p.2.practiceCount)).length
    chapterCompletionCount := chapterMinCorrect records1
    lastPracticeTime := now
    wordRecords := records1 }

end ShardedRecordManager

namespace DayRecordManager

/-- `DayRecordManager.updateTotalRecords`: append `{date, analysisGenerated := false}`
to the day index when no entry for `date` exists yet; otherwise leave the
store untouched. -/
def updateTotalRecords (s : GState) (date : String) : GState :=
  let totalRecords := s.totalRecords.getD []
  match totalRecords.find? (fun r => r.date == date) with
  | some _ => s
  | none =>
      { s with totalRecords := some (totalRecords ++ [{ date := date, analysisGenerated := false }]) }

/-- `DayRecordManager.createDayRecordFile`: idempotently create today's
(empty) day record and index today's date. -/
def createDayRecordFile (s : GState) (practiceMode : PracticeMode)
    (currentDate : String) : GState :=
  match s.dayRecords currentDate practiceMode with
  | some _ => s
  | none =>
      let emptyRecord : DayRecord := { date := currentDate, words := [] }
      let s1 := { s with dayRecords := fun d m =>
        if d = currentDate ∧ m = practiceMode then some emptyRecord
        else s.dayRecords d m }
      updateTotalRecords s1 currentDate

/-- `DayRecordManager.recordWordPractice` (full-event variant): append one
event to today's record, creating the record in place when absent.  The
word details fetched from the word-book loader are passed in as
`details`. -/
def recordWordPractice (s : GState) (dictId dictName : String)
    (chapterNumber : Nat) (word : String) (isCorrect : Bool)
    (practiceMode : PracticeMode) (currentDate now : String)
    (details : WordDetails) : GState :=
  let dayRecord := (s.dayRecords currentDate practiceMode).getD
    { date := currentDate, words := [] }
  let wordRecord : DayWordRecord :=
    { word := word
      translation := details.translation
      usphone := details.usphone
      ukphone := details.ukphone
      dictId := dictId
      dictName := dictName
      chapterNumber := chapterNumber
      practiceTime := now
      isCorrect := isCorrect }
  let dayRecord' := { dayRecord with words := dayRecord.words ++ [wordRecord] }
  { s with dayRecords := fun d m =>
      if d = currentDate ∧ m = practiceMode then some dayRecord'
      else s.dayRecords d m }

/-- Replace the flag of the first entry for `date`, leaving every other
entry unchanged; models the in-place mutation of the object returned by
`totalRecords.find`. -/
def setFirstAnalysisFlag : List DayIndexEntry → String → Bool → List DayIndexEntry
  | [], _, _ => []
  | e :: rest, date, generated =>
      if e.date = date then { e with analysisGenerated := generated } :: rest
      else e :: setFirstAnalysisFlag rest date generated

/-- `DayRecordManager.setAnalysisGenerated`: update the flag of the entry
for `date` when one exists; otherwise nothing is written. -/
def setAnalysisGenerated (s : GState) (date : String) (generated : Bool) : GState :=
  let totalRecords := s.totalRecords.getD []
  match totalRecords.find? (fun r => r.date == date) with
  | some _ =>
      { s with totalRecords := some (setFirstAnalysisFlag totalRecords date generated) }
  | none => s

end DayRecordManager

namespace ShardedRecordManager

/-- `ShardedRecordManager.recordWordPractice`: the core write path — load
the shard, apply the word update and the full shard recompute, persist the
shard (unless the empty-default guard fires), and forward the event to the
daily activity log when a `dictName` was supplied. -/
def recordWordPractice (s : GState) (dictId : String) (chapterNumber : Nat)
    (word : String) (isCorrect : Bool) (practiceMode : PracticeMode)
    (dictName : String) (currentDate now : String) (details : WordDetails) : GState :=
  let loaded := loadChapterRecord s dictId chapterNumber practiceMode now
  let chapterRecord := loaded.1
  let s0 := loaded.2
  let isEmptyRecord := chapterRecord.wordRecords.isEmpty
  let chapterRecord' := applyPractice chapterRecord word isCorrect now
  let s1 :=
    if !isEmptyRecord || 0 < chapterRecord'.wordRecords.length then
      saveChapterRecord s0 dictId chapterRecord' practiceMode
    else s0
  if dictName ≠ "" then
    DayRecordManager.recordWordPractice s1 dictId dictName chapterNumber word
      isCorrect practiceMode currentDate now details
  else s1

/-- `ShardedRecordManager.recordChapterCompletion`: recompute
`chapterCompletionCount` over the shard and persist it, skipping shards
with no word records. -/
def recordChapterCompletion (s : GState) (dictId : String) (chapterNumber : Nat)
    (practiceMode : PracticeMode) (now : String) : GState :=
  let loaded := loadChapterRecord s dictId chapterNumber practiceMode now
  let chapterRecord := loaded.1
  let s0 := loaded.2
  if 0 < chapterRecord.wordRecords.length then
    let chapterRecord' := { chapterRecord with
      chapterCompletionCount := chapterMinCorrect chapterRecord.wordRecords
      lastPracticeTime := now }
    saveChapterRecord s0 dictId chapterRecord' practiceMode
  else s0

/-- `ShardedRecordManager.updateCurrentPosition`: load-mutate-save on the
main record; note the inner `loadMainRecord(dictId, '', 0, mode)` call. -/
def updateCurrentPosition (s : GState) (dictId : String) (chapterNumber wordIndex : Nat)
    (practiceMode : PracticeMode) (now : String) : GState :=
  let loaded := loadMainRecord s dictId "" 0 practiceMode now
  let record := loaded.1
  let s1 := loaded.2
  saveMainRecord s1 { record with
    currentChapter := chapterNumber
    currentWordIndex := wordIndex
    lastPracticeTime := now }

/-- `ShardedRecordManager.updateChapterLoop`: load-mutate-save on the main
record; note the inner `loadMainRecord(dictId, '', 0, mode)` call. -/
def updateChapterLoop (s : GState) (dictId : String) (chapterLoop : Bool)
    (practiceMode : PracticeMode) (now : String) : GState :=
  let loaded := loadMainRecord s dictId "" 0 practiceMode now
  let record := loaded.1
  let s1 := loaded.2
  saveMainRecord s1 { record with
    chapterLoop := chapterLoop
    lastPracticeTime := now }

end ShardedRecordManager

namespace DayAnalysisManager

/-- One step of the first loop of `processRecordData`: fold a daily word
event into the nested dictionary/chapter structure, creating the
dictionary and chapter slots on first sight and appending a
zero-statistics word entry stamped with the event's practice time. -/
def insertEvent (dicts : List (String × ProcessedDict)) (wr : DayWordRecord) :
    List (String × ProcessedDict) :=
  let dictId := wr.dictId
  let chapterNum := toString wr.chapterNumber
  let dicts0 :=
    if (dicts.lookup dictId).isSome then dicts
    else dicts ++ [(dictId, { dictId := dictId, dictName := wr.dictName, chapters := [] })]
  dicts0.map fun p =>
    if p.1 = dictId then
      let d := p.2
      let chapters0 :=
        if (d.chapters.lookup chapterNum).isSome then d.chapters
        else d.chapters ++
          [(chapterNum, { chapterNumber := wr.chapterNumber, wordCount := 0, words := [] })]
      let chapters1 := chapters0.map fun q =>
        if q.1 = chapterNum then
          (q.1, { q.2 with
            wordCount := q.2.wordCount + 1
            words := q.2.words ++
              [{ word := wr.word
                 practiceCount := 0
                 correctCount := 0
                 errorCount := 0
                 correctRate := 0
                 lastPracticeTime := wr.practiceTime }] })
        else q
      (p.1, { d with chapters := chapters1 })
    else p

/-- The per-word enrichment of the second loop of `processRecordData`:
replace the zero statistics with the word's counters from the chapter
shard, or keep the defaults when the shard has no record of the word. -/
def enrichWord (chapterRecord : ChapterRecord) (wordInfo : ProcessedWord) : ProcessedWord :=
  match chapterRecord.wordRecords.lookup wordInfo.word with
  | some wr =>
      { word := wordInfo.word
        practiceCount := wr.practiceCount
        correctCount := wr.correctCount
        errorCount := wr.errorCount
        correctRate := wr.correctRate
        lastPracticeTime := wr.lastPracticeTime }
  | none =>
      { word := wordInfo.word
        practiceCount := 0
        correctCount := 0
        errorCount := 0
        correctRate := 0
        lastPracticeTime := wordInfo.lastPracticeTime }

/-- Models `parseInt` applied to a chapter key; the keys are canonical
decimal strings produced by `toString`, on which `String.toNat?` agrees
with `parseInt`. -/
def parseChapterKey (s : String) : Nat := s.toNat?.getD 0

/-- `DayAnalysisManager.processRecordData`: build the nested structure
from the day's events, then attach current word statistics read from the
chapter shards. -/
def processRecordData (s : GState) (record : DayRecord)
    (practiceMode : PracticeMode) (now : String) : ProcessedRecord :=
  let dicts := record.words.foldl insertEvent []
  { dicts := dicts.map fun p =>
      (p.1, { p.2 with chapters := p.2.chapters.map fun q =>
        let chapterRecord :=
          (ShardedRecordManager.loadChapterRecord s p.1 (parseChapterKey q.1)
            practiceMode now).1
        (q.1, { q.2 with words := q.2.words.map (enrichWord chapterRecord) }) }) }

/-- Append with deduplication, modelling insertion into a JavaScript
`Set` (iteration follows insertion order). -/
def dedupAppend (l : List String) (x : String) : List String :=
  if l.contains x then l else l ++ [x]

/-- `DayAnalysisManager.generateAnalysis`: read both modes' day records,
process them, build the summary, persist the report under the analysis
key for `date`, and set the day-index flag via
`DayRecordManager.setAnalysisGenerated`.  `dictDetails` stands for
`getDictDetails`, which consults the word-book loader (an external
collaborator) and yields the dictionary's name and word count, or `none`. -/
def generateAnalysis (s : GState) (date now : String)
    (dictDetails : String → Option (String × Nat)) : GState :=
  let normalRecord := s.dayRecords date PracticeMode.normal
  let dictationRecord := s.dayRecords date PracticeMode.dictation
  let normalMode := normalRecord.map fun r => processRecordData s r PracticeMode.normal now
  let dictationMode := dictationRecord.map fun r => processRecordData s r PracticeMode.dictation now
  let normalKeys := match normalMode with
    | some pr => pr.dicts.map Prod.fst
    | none => []
  let dictationKeys := match dictationMode with
    | some pr => pr.dicts.map Prod.fst
    | none => []
  let allDicts := dictationKeys.foldl dedupAppend (normalKeys.foldl dedupAppend [])
  let dictInfos := allDicts.map fun dictId =>
    let fromNormal := normalMode.bind fun pr => pr.dicts.lookup dictId
    let fromDictation := dictationMode.bind fun pr => pr.dicts.lookup dictId
    let dictName := match fromNormal with
      | some d => d.dictName
      | none => match fromDictation with
        | some d => d.dictName
        | none => "Unknown"
    let totalWordsInDict := match dictDetails dictId with
      | some details => details.2
      | none => 0
    let normalStat : DictModeStat := match fromNormal with
      | some d =>
          { chapters := d.chapters.length
            words := d.chapters.foldl (fun acc q => acc + q.2.wordCount) 0 }
      | none => { chapters := 0, words := 0 }
    let dictationStat : DictModeStat := match fromDictation with
      | some d =>
          { chapters := d.chapters.length
            words := d.chapters.foldl (fun acc q => acc + q.2.wordCount) 0 }
      | none => { chapters := 0, words := 0 }
    { dictId := dictId
      dictName := dictName
      totalWordsInDict := totalWordsInDict
      normalMode := normalStat
      dictationMode := dictationStat }
  let summary : AnalysisSummary :=
    { totalDicts := dictInfos.length
      totalChapters :=
        dictInfos.foldl (fun acc d => acc + d.normalMode.chapters + d.dictationMode.chapters) 0
      totalWords :=
        dictInfos.foldl (fun acc d => acc + d.normalMode.words + d.dictationMode.words) 0
      dicts := dictInfos }
  let analysisData : AnalysisData :=
    { date := date
      generatedAt := now
      normalMode := normalMode
      dictationMode := dictationMode
      summary := summary }
  let s1 := { s with analyses := fun d =>
    if d = date then some analysisData else s.analyses d }
  DayRecordManager.setAnalysisGenerated s1 date true

end DayAnalysisManager

/-- Strict lexicographic order on character lists, comparing code points;
models the ordinal string comparison JavaScript applies to the
`YYYY-MM-DD` date keys (both `<` and `localeCompare` coincide with it on
these ASCII strings). -/
def lexLtChars : List Char → List Char → Bool
  | [], [] => false
  | [], _ :: _ => true
  | _ :: _, [] => false
  | a :: as, b :: bs =>
      if a.toNat < b.toNat then true
      else if b.toNat < a.toNat then false
      else lexLtChars as bs

/-- Strict ordinal comparison of strings (see `lexLtChars`). -/
def strLt (a b : String) : Bool := lexLtChars a.data b.data

/-- Insert an entry into a list that is sorted by descending date, keeping
it sorted; building block of the comparator sort
`sort((a, b) => b.date.localeCompare(a.date))`. -/
def insertDescByDate (e : DayIndexEntry) : List DayIndexEntry → List DayIndexEntry
  | [] => [e]
  | x :: xs =>
      if strLt e.date x.date then x :: insertDescByDate e xs
      else e :: x :: xs

/-- Sort the day index by descending date, most recent first. -/
def sortDescByDate (l : List DayIndexEntry) : List DayIndexEntry :=
  l.foldr insertDescByDate []

/-- `DayAnalysisManager.checkAndGenerateMissingAnalysis`: walk the day
index sorted by descending date and stop at the first entry that is
strictly before `today` and not yet processed.  The result is the date for
which `generateAnalysis` is invoked — the loop body breaks after the first
hit, so at most one date is ever processed per call; `none` means no
`generateAnalysis` call happens. -/
def checkAndGenerateMissingAnalysis (today : String)
    (totalRecords : List DayIndexEntry) : Option String :=
  let sortedRecords := sortDescByDate totalRecords
  (sortedRecords.find? fun r => strLt r.date today && !r.analysisGenerated).map
    (fun r => r.date)

/-- One operation against the record store, with its external inputs
(current date, timestamp, word details) made explicit. -/
inductive ShardOp where
  | practice (dictId : String) (chapterNumber : Nat) (word : String)
      (isCorrect : Bool) (practiceMode : PracticeMode) (dictName : String)
      (currentDate now : String) (details : WordDetails)
  | complete (dictId : String) (chapterNumber : Nat)
      (practiceMode : PracticeMode) (now : String)

/-- Interpret one record-store operation. -/
def stepShard (s : GState) : ShardOp → GState
  | ShardOp.practice dictId n word isCorrect mode dictName date now details =>
      ShardedRecordManager.recordWordPractice s dictId n word isCorrect mode
        dictName date now details
  | ShardOp.complete dictId n mode now =>
      ShardedRecordManager.recordChapterCompletion s dictId n mode now

/-- Run a sequence of record-store operations. -/
def runShardOps (s : GState) (ops : List ShardOp) : GState :=
  ops.foldl stepShard s

/-- One operation against the daily activity log. -/
inductive DayOp where
  | create (practiceMode : PracticeMode) (currentDate : String)
  | practice (dictId dictName : String) (chapterNumber : Nat) (word : String)
      (isCorrect : Bool) (practiceMode : PracticeMode) (currentDate now : String)
      (details : WordDetails)
  | setFlag (date : String) (generated : Bool)

/-- Interpret one daily-activity-log operation. -/
def stepDay (s : GState) : DayOp → GState
  | DayOp.create mode date => DayRecordManager.createDayRecordFile s mode date
  | DayOp.practice dictId dictName n word isCorrect mode date now details =>
      DayRecordManager.recordWordPractice s dictId dictName n word isCorrect mode
        date now details
  | DayOp.setFlag date generated => DayRecordManager.setAnalysisGenerated s date generated

/-- Run a sequence of daily-activity-log operations. -/
def runDayOps (s : GState) (ops : List DayOp) : GState :=
  ops.foldl stepDay s

/-- Auxiliary scan for `disciplined`, carrying the dates already ensured
by a `create` operation. -/
def disciplinedFrom : List DayOp → List String → Bool
  | [], _ => true
  | DayOp.create _ d :: rest, created => disciplinedFrom rest (d :: created)
  | DayOp.practice _ _ _ _ _ _ d _ _ :: rest, created =>
      created.contains d && disciplinedFrom rest created
  | DayOp.setFlag _ _ :: rest, created => disciplinedFrom rest created

/-- A day-operation sequence is disciplined when every practice event for
a date is preceded by a `createDayRecordFile` call for that same date —
which is how the extension drives the log (the record file is ensured on
activation and on mode switch, before any practice is reported). -/
def disciplined (ops : List DayOp) : Bool := disciplinedFrom ops []

/-! Invariants of the record store and the daily activity log, and
concrete scenario data used to exercise the theorems below. -/

/-- The per-word invariant maintained by the write path: counters add up,
the word has been practiced, and the rate matches the formula. -/
def GoodWord (wr : WordRecord) : Prop :=
  wr.practiceCount = wr.correctCount + wr.errorCount ∧
  0 < wr.practiceCount ∧
  wr.correctRate = (wr.correctCount : ℚ) / (wr.practiceCount : ℚ) * 100

/-- The per-shard invariant: the completion count is the recomputed
minimum and every stored word record is good. -/
def GoodChapter (cr : ChapterRecord) : Prop :=
  cr.chapterCompletionCount = ShardedRecordManager.chapterMinCorrect cr.wordRecords ∧
  ∀ p ∈ cr.wordRecords, GoodWord p.2

/-- Every chapter shard present in the store is good. -/
def ShardInv (s : GState) : Prop :=
  ∀ d n m cr, s.chapterRecords d n m = some cr → GoodChapter cr

/-- Every date having a day activity record (in either mode) appears in
the day index. -/
def DayInv (s : GState) : Prop :=
  ∀ d m, (s.dayRecords d m).isSome = true →
    ∃ e ∈ s.totalRecords.getD [], e.date = d

/-- Fixed word details used by the concrete scenarios. -/
def demoDetails : WordDetails :=
  { translation := "tr", usphone := "us", ukphone := "uk" }

/-- Practicing the word `remote` three times correctly and once
incorrectly in chapter 1 (the specification scenario). -/
def remoteOps : List ShardOp :=
  [ ShardOp.practice "d" 1 "remote" true PracticeMode.normal "" "2024-01-01" "T1" demoDetails
  , ShardOp.practice "d" 1 "remote" true PracticeMode.normal "" "2024-01-01" "T2" demoDetails
  , ShardOp.practice "d" 1 "remote" true PracticeMode.normal "" "2024-01-01" "T3" demoDetails
  , ShardOp.practice "d" 1 "remote" false PracticeMode.normal "" "2024-01-01" "T4" demoDetails ]

/-- The chapter-1 shard stored after `remoteOps`. -/
def remoteRecord : ChapterRecord :=
  ((runShardOps GState.empty remoteOps).chapterRecords "d" 1 PracticeMode.normal).getD
    (ShardedRecordManager.defaultChapterRecord 1 "X")

/-- The stored record of the word `remote` after `remoteOps`. -/
def remoteWord : WordRecord :=
  (remoteRecord.wordRecords.lookup "remote").getD
    (ShardedRecordManager.mkFreshWordRecord "none" "X")

/-- Word `A` practiced correctly twice, word `B` correctly five times,
then an explicit chapter-completion recompute (the specification's
chapter-completion scenario). -/
def minDemoOps : List ShardOp :=
  [ ShardOp.practice "d" 1 "A" true PracticeMode.normal "" "2024-01-01" "T1" demoDetails
  , ShardOp.practice "d" 1 "A" true PracticeMode.normal "" "2024-01-01" "T2" demoDetails
  , ShardOp.practice "d" 1 "B" true PracticeMode.normal "" "2024-01-01" "T3" demoDetails
  , ShardOp.practice "d" 1 "B" true PracticeMode.normal "" "2024-01-01" "T4" demoDetails
  , ShardOp.practice "d" 1 "B" true PracticeMode.normal "" "2024-01-01" "T5" demoDetails
  , ShardOp.practice "d" 1 "B" true PracticeMode.normal "" "2024-01-01" "T6" demoDetails
  , ShardOp.practice "d" 1 "B" true PracticeMode.normal "" "2024-01-01" "T7" demoDetails
  , ShardOp.complete "d" 1 PracticeMode.normal "T8" ]

/-- The chapter-1 shard stored after `minDemoOps`. -/
def minDemoRecord : ChapterRecord :=
  ((runShardOps GState.empty minDemoOps).chapterRecords "d" 1 PracticeMode.normal).getD
    (ShardedRecordManager.defaultChapterRecord 1 "X")

/-- A stored main record with 120 words. -/
def mainRecord120 : DictRecord :=
  { dictId := "dict1"
    dictName := "Sample"
    totalWords := 120
    totalChapters := 12
    currentChapter := 1
    currentWordIndex := 0
    practiceMode := PracticeMode.normal
    chapterLoop := true
    lastPracticeTime := "T0"
    createdTime := "T0" }

/-- A store holding exactly `mainRecord120`. -/
def mainState120 : GState :=
  { GState.empty with mainRecords := fun d m =>
      if d = "dict1" ∧ m = PracticeMode.normal then some mainRecord120 else none }

/-- A single daily practice event reported without a prior
`createDayRecordFile` call. -/
def strayDayOps : List DayOp :=
  [ DayOp.practice "dict" "Sample" 1 "w" true PracticeMode.normal "2024-01-01" "T0" demoDetails ]

/-- Daily operations in the disciplined order driven by the extension:
ensure today's record, then practice in both modes, then flag a date. -/
def goodDayOps : List DayOp :=
  [ DayOp.create PracticeMode.normal "2024-01-01"
  , DayOp.practice "dict" "Sample" 1 "w" true PracticeMode.normal "2024-01-01" "T0" demoDetails
  , DayOp.practice "dict" "Sample" 1 "w" false PracticeMode.dictation "2024-01-01" "T1" demoDetails
  , DayOp.setFlag "2024-01-01" true ]

/-- The specification's day-index scenario: two unprocessed past days and
today. -/
def scenarioIndex : List DayIndexEntry :=
  [ { date := "2024-01-01", analysisGenerated := false }
  , { date := "2024-01-02", analysisGenerated := false }
  , { date := "2024-05-01", analysisGenerated := false } ]

/-- A concrete chapter shard used to exercise the chapter-load theorem. -/
def storedShardA : ChapterRecord :=
  { chapterNumber := 1
    totalWordsInChapter := 10
    completedWordsCount := 1
    chapterCompletionCount := 2
    lastPracticeTime := "T9"
    wordRecords := [("A", { word := "A", practiceCount := 2, correctCount := 2,
                            errorCount := 0, lastPracticeTime := "T9", correctRate := 100 })] }

/-- A store holding exactly the shard `storedShardA`. -/
def oneShardState : GState :=
  { GState.empty with chapterRecords := fun d n m =>
      if d = "d" ∧ n = 1 ∧ m = PracticeMode.normal then some storedShardA else none }

/-- A two-entry day index holding two unprocessed days. -/
def twoDayIndex : List DayIndexEntry :=
  [ { date := "2024-01-01", analysisGenerated := false }
  , { date := "2024-01-02", analysisGenerated := false } ]

/-- A store whose day index is `twoDayIndex`. -/
def twoDayIndexState : GState :=
  { GState.empty with totalRecords := some twoDayIndex }

/-- The corrected main record written by the self-healing branch of
`loadMainRecord`. -/
def healedRecord (r : DictRecord) (tw : Nat) : DictRecord :=
  { r with totalWords := tw, totalChapters := ceilDiv tw FIXED_WORDS_PER_CHAPTER }

/-! Helper lemmas about the ordinal string order. -/

/-- Head characterization of the lexicographic order. -/
lemma lexLtChars_cons_iff (x y : Char) (xs ys : List Char) :
    lexLtChars (x :: xs) (y :: ys) = true ↔
      x.toNat < y.toNat ∨ (x.toNat = y.toNat ∧ lexLtChars xs ys = true) := by
  rw [lexLtChars]
  by_cases h1 : x.toNat < y.toNat
  · simp [h1]
  · by_cases h2 : y.toNat < x.toNat
    · simp [h1, h2]
      omega
    · have h3 : x.toNat = y.toNat := by omega
      simp [h1, h2, h3]

/-- The lexicographic order is irreflexive. -/
lemma lexLtChars_irrefl : ∀ l : List Char, lexLtChars l l = false := by
  intro l
  induction l with
  | nil => rfl
  | cons a as ih =>
      rw [lexLtChars, if_neg (Nat.lt_irrefl _), if_neg (Nat.lt_irrefl _)]
      exact ih

/-- The lexicographic order is transitive. -/
lemma lexLtChars_trans : ∀ a b c : List Char,
    lexLtChars a b = true → lexLtChars b c = true → lexLtChars a c = true := by
  intro a
  induction a with
  | nil =>
      intro b c hab hbc
      cases b with
      | nil => exact hbc
      | cons y ys =>
          cases c with
          | nil => simp [lexLtChars] at hbc
          | cons z zs => rfl
  | cons x xs ih =>
      intro b c hab hbc
      cases b with
      | nil => simp [lexLtChars] at hab
      | cons y ys =>
          cases c with
          | nil => simp [lexLtChars] at hbc
          | cons z zs =>
              rw [lexLtChars_cons_iff] at hab hbc ⊢
              rcases hab with h1 | ⟨h1, h1'⟩ <;> rcases hbc with h2 | ⟨h2, h2'⟩
              · exact Or.inl (by omega)
              · exact Or.inl (by omega)
              · exact Or.inl (by omega)
              · exact Or.inr ⟨by omega, ih ys zs h1' h2'⟩

/-- Two lists neither of which is below the other are equal. -/
lemma lexLtChars_connex : ∀ a b : List Char,
    lexLtChars a b = false → lexLtChars b a = false → a = b := by
  intro a
  induction a with
  | nil =>
      intro b hab _
      cases b with
      | nil => rfl
      | cons y ys => simp [lexLtChars] at hab
  | cons x xs ih =>
      intro b hab hba
      cases b with
      | nil => simp [lexLtChars] at hba
      | cons y ys =>
          rw [← Bool.not_eq_true, lexLtChars_cons_iff] at hab hba
          push_neg at hab hba
          have hxy : x.toNat = y.toNat := by
            have h1 := hab.1
            have h2 := hba.1
            omega
          have hx : x = y := by
            apply Char.eq_of_val_eq
            apply UInt32.eq_of_val_eq
            exact Fin.ext hxy
          have htail : xs = ys := by
            apply ih
            · exact Bool.not_eq_true _ ▸ (by simpa using hab.2 hxy)
            · exact Bool.not_eq_true _ ▸ (by simpa using hba.2 hxy.symm)
          rw [hx, htail]

/-- `strLt` is irreflexive. -/
lemma strLt_irrefl (a : String) : strLt a a = false := lexLtChars_irrefl _

/-- `strLt` is transitive. -/
lemma strLt_trans {a b c : String} (h1 : strLt a b = true) (h2 : strLt b c = true) :
    strLt a c = true := lexLtChars_trans _ _ _ h1 h2

/-- `strLt` is asymmetric. -/
lemma strLt_asymm {a b : String} (h : strLt a b = true) : strLt b a = false := by
  by_contra h2
  rw [Bool.not_eq_false] at h2
  have h3 := strLt_trans h h2
  rw [strLt_irrefl] at h3
  exact Bool.false_ne_true h3

/-- Two strings neither of which is below the other are equal. -/
lemma strLt_connex {a b : String} (h1 : strLt a b = false) (h2 : strLt b a = false) :
    a = b := String.ext (lexLtChars_connex _ _ h1 h2)

/-- The complement of `strLt` (a reflexive total order) is transitive. -/
lemma strGe_trans {a b c : String} (h1 : strLt a b = false) (h2 : strLt b c = false) :
    strLt a c = false := by
  by_contra hac
  rw [Bool.not_eq_false] at hac
  cases hba : strLt b a with
  | false =>
      have hab : a = b := strLt_connex h1 hba
      rw [← hab, hac] at h2
      exact absurd h2 (by simp)
  | true =>
      have h3 := strLt_trans hba hac
      rw [h3] at h2
      exact absurd h2 (by simp)

/-! Helper lemmas about the descending sort of the day index. -/

/-- Membership through `insertDescByDate`. -/
lemma mem_insertDescByDate {b e : DayIndexEntry} :
    ∀ {l : List DayIndexEntry}, b ∈ insertDescByDate e l ↔ b = e ∨ b ∈ l := by
  intro l
  induction l with
  | nil => simp [insertDescByDate]
  | cons x xs ih =>
      rw [insertDescByDate]
      by_cases h : strLt e.date x.date = true
      · simp [h, ih]
        tauto
      · rw [Bool.not_eq_true] at h
        simp [h]

/-- `insertDescByDate` preserves the descending-by-date invariant. -/
lemma pairwise_insertDescByDate (e : DayIndexEntry) :
    ∀ {l : List DayIndexEntry},
      l.Pairwise (fun a b => strLt a.date b.date = false) →
      (insertDescByDate e l).Pairwise (fun a b => strLt a.date b.date = false) := by
  intro l
  induction l with
  | nil =>
      intro _
      simp [insertDescByDate]
  | cons x xs ih =>
      intro hp
      rw [List.pairwise_cons] at hp
      rw [insertDescByDate]
      by_cases h : strLt e.date x.date = true
      · rw [if_pos h, List.pairwise_cons]
        refine ⟨?_, ih hp.2⟩
        intro b hb
        rcases mem_insertDescByDate.mp hb with rfl | hb'
        · exact strLt_asymm h
        · exact hp.1 b hb'
      · rw [if_neg h, List.pairwise_cons]
        rw [Bool.not_eq_true] at h
        refine ⟨?_, List.pairwise_cons.mpr hp⟩
        intro b hb
        rcases List.mem_cons.mp hb with rfl | hb'
        · exact h
        · exact strGe_trans h (hp.1 b hb')

/-- The sorted day index is descending by date. -/
lemma pairwise_sortDescByDate (l : List DayIndexEntry) :
    (sortDescByDate l).Pairwise (fun a b => strLt a.date b.date = false) := by
  induction l with
  | nil => simp [sortDescByDate]
  | cons x xs ih => exact pairwise_insertDescByDate x ih

/-- Sorting does not change the set of entries. -/
lemma mem_sortDescByDate {b : DayIndexEntry} :
    ∀ {l : List DayIndexEntry}, b ∈ sortDescByDate l ↔ b ∈ l := by
  intro l
  induction l with
  | nil => simp [sortDescByDate]
  | cons x xs ih =>
      show b ∈ insertDescByDate x (sortDescByDate xs) ↔ _
      rw [mem_insertDescByDate, ih]
      simp

/-- In a descending list, the first entry satisfying a predicate has the
greatest date among all entries satisfying it. -/
lemma find?_max_of_pairwise (q : DayIndexEntry → Bool) :
    ∀ l : List DayIndexEntry,
      l.Pairwise (fun a b => strLt a.date b.date = false) →
      ∀ e, l.find? q = some e →
      ∀ f ∈ l, q f = true → strLt e.date f.date = false := by
  intro l
  induction l with
  | nil =>
      intro _ e he
      simp [List.find?] at he
  | cons x xs ih =>
      intro hp e he f hf hq
      rw [List.pairwise_cons] at hp
      cases hqx : q x with
      | true =>
          rw [List.find?_cons, hqx] at he
          have hex : x = e := by
            simpa using he
          subst hex
          rcases List.mem_cons.mp hf with rfl | hf'
          · exact strLt_irrefl _
          · exact hp.1 f hf'
      | false =>
          rw [List.find?_cons, hqx] at he
          rcases List.mem_cons.mp hf with rfl | hf'
          · rw [hq] at hqx
            exact absurd hqx (by simp)
          · exact ih hp.2 e he f hf' hq

/-! Helper lemmas about the running minimum. -/

/-- The running minimum is below its initial value. -/
lemma foldl_min_le_init : ∀ (cs : List Nat) (c : Nat), cs.foldl Nat.min c ≤ c := by
  intro cs
  induction cs with
  | nil => intro c; simp
  | cons d ds ih =>
      intro c
      calc (d :: ds).foldl Nat.min c = ds.foldl Nat.min (Nat.min c d) := rfl
        _ ≤ Nat.min c d := ih _
        _ ≤ c := Nat.min_le_left _ _

/-- The running minimum is below every list element. -/
lemma foldl_min_le_mem : ∀ (cs : List Nat) (c x : Nat), x ∈ cs → cs.foldl Nat.min c ≤ x := by
  intro cs
  induction cs with
  | nil => intro c x hx; cases hx
  | cons d ds ih =>
      intro c x hx
      rcases List.mem_cons.mp hx with rfl | hx'
      · calc (x :: ds).foldl Nat.min c = ds.foldl Nat.min (Nat.min c x) := rfl
          _ ≤ Nat.min c x := foldl_min_le_init _ _
          _ ≤ x := Nat.min_le_right _ _
      · exact ih _ x hx'

/-- The running minimum is attained: it is the initial value or a list
element. -/
lemma foldl_min_mem : ∀ (cs : List Nat) (c : Nat),
    cs.foldl Nat.min c = c ∨ cs.foldl Nat.min c ∈ cs := by
  intro cs
  induction cs with
  | nil => intro c; exact Or.inl rfl
  | cons d ds ih =>
      intro c
      rcases ih (Nat.min c d) with h | h
      · rcases Nat.le_total c d with hcd | hdc
        · left
          calc (d :: ds).foldl Nat.min c = ds.foldl Nat.min (Nat.min c d) := rfl
            _ = Nat.min c d := h
            _ = c := Nat.min_eq_left hcd
        · right
          have hd : (d :: ds).foldl Nat.min c = d := by
            calc (d :: ds).foldl Nat.min c = ds.foldl Nat.min (Nat.min c d) := rfl
              _ = Nat.min c d := h
              _ = d := Nat.min_eq_right hdc
          rw [hd]
          exact List.mem_cons_self _ _
      · right
        exact List.mem_cons_of_mem _ h

/-- The chapter completion count is below the correct count of every
practiced word in the shard. -/
lemma chapterMinCorrect_le (wrs : List (String × WordRecord))
    (p : String × WordRecord) (hp : p ∈ wrs) (hpos : 0 < p.2.practiceCount) :
    ShardedRecordManager.chapterMinCorrect wrs ≤ p.2.correctCount := by
  have hmem : p.2.correctCount ∈
      (wrs.filter (fun q => 0 < q.2.practiceCount)).map (fun q => q.2.correctCount) := by
    apply List.mem_map_of_mem
    rw [List.mem_filter]
    exact ⟨hp, by simpa using hpos⟩
  rw [ShardedRecordManager.chapterMinCorrect]
  cases h : (wrs.filter (fun q => 0 < q.2.practiceCount)).map (fun q => q.2.correctCount) with
  | nil => rw [h] at hmem; cases hmem
  | cons c cs =>
      rw [h] at hmem
      rcases List.mem_cons.mp hmem with heq | hmem'
      · rw [← heq] at *
        exact foldl_min_le_init _ _
      · exact foldl_min_le_mem _ _ _ hmem'

/-- The chapter completion count is attained by a practiced word whenever
one exists. -/
lemma chapterMinCorrect_attained (wrs : List (String × WordRecord))
    (h : ∃ p ∈ wrs, 0 < p.2.practiceCount) :
    ∃ p ∈ wrs, 0 < p.2.practiceCount ∧
      ShardedRecordManager.chapterMinCorrect wrs = p.2.correctCount := by
  obtain ⟨p, hp, hpos⟩ := h
  have hmem : p.2.correctCount ∈
      (wrs.filter (fun q => 0 < q.2.practiceCount)).map (fun q => q.2.correctCount) := by
    apply List.mem_map_of_mem
    rw [List.mem_filter]
    exact ⟨hp, by simpa using hpos⟩
  rw [ShardedRecordManager.chapterMinCorrect]
  cases hcs : (wrs.filter (fun q => 0 < q.2.practiceCount)).map (fun q => q.2.correctCount) with
  | nil => rw [hcs] at hmem; cases hmem
  | cons c cs =>
      have hval : cs.foldl Nat.min c ∈ c :: cs := by
        rcases foldl_min_mem cs c with h1 | h1
        · rw [h1]; exact List.mem_cons_self _ _
        · exact List.mem_cons_of_mem _ h1
      rw [← hcs] at hval
      obtain ⟨q, hq, hqv⟩ := List.mem_map.mp hval
      rw [List.mem_filter] at hq
      exact ⟨q, hq.1, by simpa using hq.2, hqv.symm⟩

/-- The chapter completion count is zero when no word has been
practiced. -/
lemma chapterMinCorrect_zero (wrs : List (String × WordRecord))
    (h : ∀ p ∈ wrs, p.2.practiceCount = 0) :
    ShardedRecordManager.chapterMinCorrect wrs = 0 := by
  have hfil : wrs.filter (fun q => 0 < q.2.practiceCount) = [] := by
    rw [List.filter_eq_nil_iff]
    intro p hp
    simp [h p hp]
  rw [ShardedRecordManager.chapterMinCorrect, hfil]
  rfl

/-! Helper lemmas about the record-store write path. -/

/-- Loading a chapter record leaves the store untouched. -/
lemma loadChapterRecord_snd (s : GState) (dictId : String) (n : Nat)
    (m : PracticeMode) (now : String) :
    (ShardedRecordManager.loadChapterRecord s dictId n m now).2 = s := by
  unfold ShardedRecordManager.loadChapterRecord
  cases s.chapterRecords dictId n m <;> rfl

/-- Loading an existing chapter record returns it. -/
lemma loadChapterRecord_fst_some (s : GState) (dictId : String) (n : Nat)
    (m : PracticeMode) (now : String) (cr : ChapterRecord)
    (h : s.chapterRecords dictId n m = some cr) :
    (ShardedRecordManager.loadChapterRecord s dictId n m now).1 = cr := by
  unfold ShardedRecordManager.loadChapterRecord
  rw [h]

/-- Loading an absent chapter record returns the default. -/
lemma loadChapterRecord_fst_none (s : GState) (dictId : String) (n : Nat)
    (m : PracticeMode) (now : String)
    (h : s.chapterRecords dictId n m = none) :
    (ShardedRecordManager.loadChapterRecord s dictId n m now).1 =
      ShardedRecordManager.defaultChapterRecord n now := by
  unfold ShardedRecordManager.loadChapterRecord
  rw [h]

/-- One practice update keeps a word record good, given that its counters
added up beforehand. -/
lemma goodWord_updateWordRecord (wr : WordRecord) (isCorrect : Bool) (now : String)
    (hsum : wr.practiceCount = wr.correctCount + wr.errorCount) :
    GoodWord (ShardedRecordManager.updateWordRecord wr isCorrect now) := by
  refine ⟨?_, ?_, ?_⟩
  · cases isCorrect <;> simp [ShardedRecordManager.updateWordRecord] <;> omega
  · simp [ShardedRecordManager.updateWordRecord]
  · simp [ShardedRecordManager.updateWordRecord]

/-- The word records loaded by the write path have good counters, whether
the shard was stored (by the store invariant) or defaulted (vacuously). -/
lemma loaded_wordRecords_good (s : GState) (hs : ShardInv s) (dictId : String)
    (n : Nat) (m : PracticeMode) (now : String) :
    ∀ p ∈ (ShardedRecordManager.loadChapterRecord s dictId n m now).1.wordRecords,
      GoodWord p.2 := by
  cases hsc : s.chapterRecords dictId n m with
  | some cr0 =>
      rw [loadChapterRecord_fst_some s dictId n m now cr0 hsc]
      exact (hs dictId n m cr0 hsc).2
  | none =>
      rw [loadChapterRecord_fst_none s dictId n m now hsc]
      intro p hp
      cases hp

/-- The shard produced by `applyPractice` is good whenever the incoming
word records are good. -/
lemma goodChapter_applyPractice (cr : ChapterRecord) (word : String)
    (isCorrect : Bool) (now : String)
    (h : ∀ p ∈ cr.wordRecords, GoodWord p.2) :
    GoodChapter (ShardedRecordManager.applyPractice cr word isCorrect now) := by
  constructor
  · rfl
  · intro q hq
    have hq' : q ∈ (if (cr.wordRecords.lookup word).isSome then cr.wordRecords
        else cr.wordRecords ++ [(word, ShardedRecordManager.mkFreshWordRecord word now)]).map
          (fun p => if p.1 = word then (p.1, ShardedRecordManager.updateWordRecord p.2 isCorrect now) else p) := hq
    obtain ⟨p, hp, hpq⟩ := List.mem_map.mp hq'
    have hpgood : GoodWord p.2 ∨ p = (word, ShardedRecordManager.mkFreshWordRecord word now) := by
      by_cases hl : (cr.wordRecords.lookup word).isSome
      · rw [if_pos hl] at hp
        exact Or.inl (h p hp)
      · rw [if_neg hl] at hp
        rcases List.mem_append.mp hp with hp' | hp'
        · exact Or.inl (h p hp')
        · exact Or.inr (by simpa using hp')
    by_cases hw : p.1 = word
    · rw [if_pos hw] at hpq
      rw [← hpq]
      apply goodWord_updateWordRecord
      rcases hpgood with hg | hg
      · exact hg.1
      · rw [hg]
        rfl
    · rw [if_neg hw] at hpq
      rw [← hpq]
      rcases hpgood with hg | hg
      · exact hg
      · exact absurd (congrArg Prod.fst hg) hw

/-- Forwarding an event to the daily activity log does not touch the
chapter shards. -/
lemma chapterRecords_dayRecordWordPractice (s : GState) (dictId dictName : String)
    (n : Nat) (word : String) (isCorrect : Bool) (m : PracticeMode)
    (date now : String) (details : WordDetails) :
    (DayRecordManager.recordWordPractice s dictId dictName n word isCorrect m
      date now details).chapterRecords = s.chapterRecords := rfl

/-- Saving a good shard preserves the store invariant. -/
lemma shardInv_saveChapterRecord (s : GState) (hs : ShardInv s) (dictId : String)
    (cr : ChapterRecord) (m : PracticeMode) (hcr : GoodChapter cr) :
    ShardInv (ShardedRecordManager.saveChapterRecord s dictId cr m) := by
  intro d' n' m' cr' hcr'
  unfold ShardedRecordManager.saveChapterRecord at hcr'
  simp only at hcr'
  by_cases hkey : d' = dictId ∧ n' = cr.chapterNumber ∧ m' = m
  · rw [if_pos hkey] at hcr'
    cases hcr'
    exact hcr
  · rw [if_neg hkey] at hcr'
    exact hs d' n' m' cr' hcr'

/-- Recording a practice event preserves the store invariant. -/
lemma shardInv_recordWordPractice (s : GState) (hs : ShardInv s) (dictId : String)
    (n : Nat) (word : String) (isCorrect : Bool) (mode : PracticeMode)
    (dictName date now : String) (details : WordDetails) :
    ShardInv (ShardedRecordManager.recordWordPractice s dictId n word isCorrect
      mode dictName date now details) := by
  have hGC : GoodChapter (ShardedRecordManager.applyPractice
      (ShardedRecordManager.loadChapterRecord s dictId n mode now).1 word isCorrect now) :=
    goodChapter_applyPractice _ _ _ _ (loaded_wordRecords_good s hs dictId n mode now)
  have hsnd := loadChapterRecord_snd s dictId n mode now
  intro d' n' m' cr' hcr'
  unfold ShardedRecordManager.recordWordPractice at hcr'
  simp only [chapterRecords_dayRecordWordPractice, hsnd] at hcr'
  by_cases hname : dictName ≠ ""
  · rw [if_pos hname] at hcr'
    rw [chapterRecords_dayRecordWordPractice] at hcr'
    split at hcr'
    · exact shardInv_saveChapterRecord s hs dictId _ mode hGC d' n' m' cr' hcr'
    · exact hs d' n' m' cr' hcr'
  · rw [if_neg hname] at hcr'
    split at hcr'
    · exact shardInv_saveChapterRecord s hs dictId _ mode hGC d' n' m' cr' hcr'
    · exact hs d' n' m' cr' hcr'

/-- Recomputing the chapter completion preserves the store invariant. -/
lemma shardInv_recordChapterCompletion (s : GState) (hs : ShardInv s)
    (dictId : String) (n : Nat) (mode : PracticeMode) (now : String) :
    ShardInv (ShardedRecordManager.recordChapterCompletion s dictId n mode now) := by
  have hsnd := loadChapterRecord_snd s dictId n mode now
  intro d' n' m' cr' hcr'
  unfold ShardedRecordManager.recordChapterCompletion at hcr'
  simp only [hsnd] at hcr'
  split at hcr'
  · rename_i hlen
    have hGC : GoodChapter { (ShardedRecordManager.loadChapterRecord s dictId n mode now).1 with
        chapterCompletionCount := ShardedRecordManager.chapterMinCorrect
          (ShardedRecordManager.loadChapterRecord s dictId n mode now).1.wordRecords
        lastPracticeTime := now } := by
      constructor
      · rfl
      · intro p hp
        exact loaded_wordRecords_good s hs dictId n mode now p hp
    exact shardInv_saveChapterRecord s hs dictId _ mode hGC d' n' m' cr' hcr'
  · exact hs d' n' m' cr' hcr'

/-- Every record-store operation preserves the store invariant. -/
lemma shardInv_stepShard (s : GState) (op : ShardOp) (hs : ShardInv s) :
    ShardInv (stepShard s op) := by
  cases op with
  | practice dictId n word isCorrect mode dictName date now details =>
      exact shardInv_recordWordPractice s hs dictId n word isCorrect mode dictName
        date now details
  | complete dictId n mode now =>
      exact shardInv_recordChapterCompletion s hs dictId n mode now

/-- The store invariant holds after any operation sequence from an
invariant state. -/
lemma shardInv_runShardOps (ops : List ShardOp) :
    ∀ s : GState, ShardInv s → ShardInv (runShardOps s ops) := by
  induction ops with
  | nil => intro s hs; exact hs
  | cons op rest ih =>
      intro s hs
      exact ih (stepShard s op) (shardInv_stepShard s op hs)

/-- The empty store satisfies the invariant. -/
lemma shardInv_empty : ShardInv GState.empty := by
  intro d n m cr h
  simp [GState.empty] at h

/-- C1: after any sequence of `recordWordPractice` and
`recordChapterCompletion` calls from an empty store, every stored chapter
shard's `chapterCompletionCount` equals the minimum of `correctCount`
over the shard's word records with `practiceCount > 0` (the value is
below every such count and attained by one of them), and equals `0` when
no word of the shard has been practiced. -/
theorem chapterCompletion_min_invariant (ops : List ShardOp) (d : String) (n : Nat)
    (m : PracticeMode) (cr : ChapterRecord)
    (h : (runShardOps GState.empty ops).chapterRecords d n m = some cr) :
    (∀ p ∈ cr.wordRecords, 0 < p.2.practiceCount →
      cr.chapterCompletionCount ≤ p.2.correctCount) ∧
    ((∃ p ∈ cr.wordRecords, 0 < p.2.practiceCount) →
      ∃ p ∈ cr.wordRecords, 0 < p.2.practiceCount ∧
        cr.chapterCompletionCount = p.2.correctCount) ∧
    ((∀ p ∈ cr.wordRecords, p.2.practiceCount = 0) →
      cr.chapterCompletionCount = 0) := by
  have hGC := shardInv_runShardOps ops GState.empty shardInv_empty d n m cr h
  rw [hGC.1]
  exact ⟨fun p hp hpos => chapterMinCorrect_le _ p hp hpos,
    fun hex => chapterMinCorrect_attained _ hex,
    fun hall => chapterMinCorrect_zero _ hall⟩

/-- Witness for C1 on the concrete scenario `minDemoOps` (A correct twice,
B correct five times, then a completion recompute): the stored completion
count is `min 2 5 = 2` and satisfies the minimum characterization. -/
theorem chapterCompletion_min_invariant_witness :
    minDemoRecord.chapterCompletionCount = 2 ∧
    minDemoRecord.completedWordsCount = 2 ∧
    ((∀ p ∈ minDemoRecord.wordRecords, 0 < p.2.practiceCount →
      minDemoRecord.chapterCompletionCount ≤ p.2.correctCount) ∧
    ((∃ p ∈ minDemoRecord.wordRecords, 0 < p.2.practiceCount) →
      ∃ p ∈ minDemoRecord.wordRecords, 0 < p.2.practiceCount ∧
        minDemoRecord.chapterCompletionCount = p.2.correctCount) ∧
    ((∀ p ∈ minDemoRecord.wordRecords, p.2.practiceCount = 0) →
      minDemoRecord.chapterCompletionCount = 0)) :=
  ⟨rfl, rfl,
    chapterCompletion_min_invariant minDemoOps "d" 1 PracticeMode.normal minDemoRecord rfl⟩

/-- C3: after any sequence of `recordWordPractice` (and
`recordChapterCompletion`) calls from an empty store, every word record of
every stored chapter shard satisfies
`practiceCount = correctCount + errorCount`. -/
theorem practice_split_invariant (ops : List ShardOp) (d : String) (n : Nat)
    (m : PracticeMode) (cr : ChapterRecord)
    (h : (runShardOps GState.empty ops).chapterRecords d n m = some cr) :
    ∀ p ∈ cr.wordRecords,
      p.2.practiceCount = p.2.correctCount + p.2.errorCount := by
  intro p hp
  exact ((shardInv_runShardOps ops GState.empty shardInv_empty d n m cr h).2 p hp).1

/-- Witness for C3 on the concrete scenario `remoteOps` (word practiced
four times, three of them correctly). -/
theorem practice_split_invariant_witness :
    remoteWord.practiceCount = 4 ∧
    (∀ p ∈ remoteRecord.wordRecords,
      p.2.practiceCount = p.2.correctCount + p.2.errorCount) :=
  ⟨rfl, practice_split_invariant remoteOps "d" 1 PracticeMode.normal remoteRecord rfl⟩

/-- C7: after any sequence of `recordWordPractice` calls from an empty
store, every stored word record's `correctRate` lies in `[0, 100]`,
equals `correctCount / practiceCount * 100` when `practiceCount > 0`, and
equals `0` when `practiceCount = 0`. -/
theorem correctRate_invariant (ops : List ShardOp) (d : String) (n : Nat)
    (m : PracticeMode) (cr : ChapterRecord)
    (h : (runShardOps GState.empty ops).chapterRecords d n m = some cr) :
    ∀ p ∈ cr.wordRecords,
      0 ≤ p.2.correctRate ∧ p.2.correctRate ≤ 100 ∧
      (0 < p.2.practiceCount →
        p.2.correctRate = (p.2.correctCount : ℚ) / (p.2.practiceCount : ℚ) * 100) ∧
      (p.2.practiceCount = 0 → p.2.correctRate = 0) := by
  intro p hp
  obtain ⟨hsum, hpos, hrate⟩ :=
    (shardInv_runShardOps ops GState.empty shardInv_empty d n m cr h).2 p hp
  have hcle : p.2.correctCount ≤ p.2.practiceCount := by omega
  have hpq : (0 : ℚ) < (p.2.practiceCount : ℚ) := by exact_mod_cast hpos
  have hcq : ((p.2.correctCount : ℚ)) ≤ (p.2.practiceCount : ℚ) := by exact_mod_cast hcle
  refine ⟨?_, ?_, fun _ => hrate, fun h0 => absurd hpos (by omega)⟩
  · rw [hrate]
    have : (0 : ℚ) ≤ (p.2.correctCount : ℚ) / (p.2.practiceCount : ℚ) :=
      div_nonneg (by positivity) (le_of_lt hpq)
    nlinarith
  · rw [hrate]
    have hdiv : (p.2.correctCount : ℚ) / (p.2.practiceCount : ℚ) ≤ 1 :=
      (div_le_one hpq).mpr hcq
    nlinarith

/-- Witness for C7 on the specification scenario: practicing `remote`
correctly three times and incorrectly once yields counters `(4, 3, 1)`
and a correct rate of exactly `75`, within the invariant. -/
theorem correctRate_invariant_witness :
    remoteWord.practiceCount = 4 ∧ remoteWord.correctCount = 3 ∧
    remoteWord.errorCount = 1 ∧ remoteWord.correctRate = 75 ∧
    (∀ p ∈ remoteRecord.wordRecords,
      0 ≤ p.2.correctRate ∧ p.2.correctRate ≤ 100 ∧
      (0 < p.2.practiceCount →
        p.2.correctRate = (p.2.correctCount : ℚ) / (p.2.practiceCount : ℚ) * 100) ∧
      (p.2.practiceCount = 0 → p.2.correctRate = 0)) := by
  refine ⟨rfl, rfl, rfl, ?_, correctRate_invariant remoteOps "d" 1 PracticeMode.normal remoteRecord rfl⟩
  have h : remoteWord.correctRate = ((3 : Nat) : ℚ) / ((4 : Nat) : ℚ) * 100 := rfl
  rw [h]
  norm_num

/-- Case analysis of `loadMainRecord` on a stored record: either the
stored `totalWords` matches and nothing happens, or the record is healed
and persisted. -/
lemma loadMainRecord_cases (s : GState) (d name : String) (tw : Nat)
    (m : PracticeMode) (now : String) (r : DictRecord)
    (h : s.mainRecords d m = some r) :
    (r.totalWords = tw →
      ShardedRecordManager.loadMainRecord s d name tw m now = (r, s)) ∧
    (r.totalWords ≠ tw →
      ShardedRecordManager.loadMainRecord s d name tw m now =
        (healedRecord r tw,
          ShardedRecordManager.saveMainRecord s (healedRecord r tw))) := by
  constructor
  · intro heq
    simp only [ShardedRecordManager.loadMainRecord, h]
    rw [if_neg (by simp [heq])]
  · intro hne
    simp only [ShardedRecordManager.loadMainRecord, h]
    rw [if_pos hne]
    rfl

/-- C6: `loadMainRecord` on a stored record is idempotent and
self-healing — with a matching `totalWords` it returns the stored record
and the unchanged store (no write, `lastPracticeTime` untouched); with a
mismatch it returns the record corrected to the given `totalWords` and
`totalChapters = ceil(totalWords / 10)` and persists exactly that
correction. -/
theorem loadMainRecord_selfheal (s : GState) (d name : String) (tw : Nat)
    (m : PracticeMode) (now : String) (r : DictRecord)
    (h : s.mainRecords d m = some r) :
    (r.totalWords = tw →
      ShardedRecordManager.loadMainRecord s d name tw m now = (r, s)) ∧
    (r.totalWords ≠ tw →
      ShardedRecordManager.loadMainRecord s d name tw m now =
        (healedRecord r tw,
          ShardedRecordManager.saveMainRecord s (healedRecord r tw))) :=
  loadMainRecord_cases s d name tw m now r h

/-- Witness for C6: loading the stored 120-word record with 120 changes
nothing; loading it with 200 yields `totalWords = 200` and
`totalChapters = 20`. -/
theorem loadMainRecord_selfheal_witness :
    (ShardedRecordManager.loadMainRecord mainState120 "dict1" "Sample" 120
        PracticeMode.normal "T1" = (mainRecord120, mainState120)) ∧
    (ShardedRecordManager.loadMainRecord mainState120 "dict1" "Sample" 200
        PracticeMode.normal "T1").1.totalWords = 200 ∧
    (ShardedRecordManager.loadMainRecord mainState120 "dict1" "Sample" 200
        PracticeMode.normal "T1").1.totalChapters = 20 := by
  have hstored : mainState120.mainRecords "dict1" PracticeMode.normal
      = some mainRecord120 := rfl
  have h1 := (loadMainRecord_selfheal mainState120 "dict1" "Sample" 120
    PracticeMode.normal "T1" mainRecord120 hstored).1 rfl
  have h2 := (loadMainRecord_selfheal mainState120 "dict1" "Sample" 200
    PracticeMode.normal "T1" mainRecord120 hstored).2 (by decide)
  refine ⟨h1, ?_, ?_⟩
  · rw [h2]
    rfl
  · rw [h2]
    rfl

/-- C8: `loadChapterRecord` performs no store write — the store after the
call is the input store, with every key of every family untouched — and
returns the stored shard when present, a zero-value default otherwise. -/
theorem loadChapterRecord_pure (s : GState) (d : String) (n : Nat)
    (m : PracticeMode) (now : String) :
    (ShardedRecordManager.loadChapterRecord s d n m now).2 = s ∧
    (∀ cr, s.chapterRecords d n m = some cr →
      (ShardedRecordManager.loadChapterRecord s d n m now).1 = cr) ∧
    (s.chapterRecords d n m = none →
      (ShardedRecordManager.loadChapterRecord s d n m now).1 =
        { chapterNumber := n
          totalWordsInChapter := 10
          completedWordsCount := 0
          chapterCompletionCount := 0
          lastPracticeTime := now
          wordRecords := [] }) :=
  ⟨loadChapterRecord_snd s d n m now,
    fun cr h => loadChapterRecord_fst_some s d n m now cr h,
    fun h => loadChapterRecord_fst_none s d n m now h⟩

/-- Witness for C8: on a store holding one shard, loading that shard
returns it and loading an absent chapter returns the default; both calls
leave the store exactly as it was. -/
theorem loadChapterRecord_pure_witness :
    (ShardedRecordManager.loadChapterRecord oneShardState "d" 1
        PracticeMode.normal "T1").2 = oneShardState ∧
    (ShardedRecordManager.loadChapterRecord oneShardState "d" 1
        PracticeMode.normal "T1").1 = storedShardA ∧
    (ShardedRecordManager.loadChapterRecord oneShardState "d" 2
        PracticeMode.normal "T1").1 =
      { chapterNumber := 2
        totalWordsInChapter := 10
        completedWordsCount := 0
        chapterCompletionCount := 0
        lastPracticeTime := "T1"
        wordRecords := [] } :=
  ⟨(loadChapterRecord_pure oneShardState "d" 1 PracticeMode.normal "T1").1,
    (loadChapterRecord_pure oneShardState "d" 1 PracticeMode.normal "T1").2.1
      storedShardA rfl,
    (loadChapterRecord_pure oneShardState "d" 2 PracticeMode.normal "T1").2.2 rfl⟩

/-- C2 counterexample: on a store holding a main record with
`totalWords = 120`, a single `updateCurrentPosition` call rewrites the
stored record with `totalWords = 0` (and `updateChapterLoop` rewrites
`totalChapters` to `0`), because both pass `totalWords = 0` to the
self-healing `loadMainRecord`; the claim that these fields are unchanged
fails. -/
theorem updatePosition_clobbers_totalWords :
    mainState120.mainRecords "dict1" PracticeMode.normal = some mainRecord120 ∧
    mainRecord120.totalWords = 120 ∧ mainRecord120.totalChapters = 12 ∧
    ((ShardedRecordManager.updateCurrentPosition mainState120 "dict1" 2 3
        PracticeMode.normal "T1").mainRecords "dict1" PracticeMode.normal).map
      DictRecord.totalWords = some 0 ∧
    ((ShardedRecordManager.updateChapterLoop mainState120 "dict1" false
        PracticeMode.normal "T1").mainRecords "dict1" PracticeMode.normal).map
      DictRecord.totalChapters = some 0 :=
  ⟨rfl, rfl, rfl, rfl, rfl⟩

/-- C2 (amended): on a stored main record keyed consistently,
`updateCurrentPosition` changes exactly `currentChapter`,
`currentWordIndex` and `lastPracticeTime` — and, because it calls
`loadMainRecord` with `totalWords = 0`, also sets `totalWords` to `0` and
`totalChapters` to `0` whenever the stored `totalWords` was non-zero;
`updateChapterLoop` likewise changes exactly `chapterLoop`,
`lastPracticeTime`, `totalWords` and `totalChapters`.  All remaining
fields (`dictId`, `dictName`, `practiceMode`, `createdTime`, and the
fields not targeted by the respective operation) are unchanged. -/
theorem position_and_loop_frame (s : GState) (dictId : String) (ch wi : Nat)
    (loop : Bool) (m : PracticeMode) (now : String) (r : DictRecord)
    (h : s.mainRecords dictId m = some r) (hid : r.dictId = dictId)
    (hm : r.practiceMode = m) :
    (ShardedRecordManager.updateCurrentPosition s dictId ch wi m now).mainRecords dictId m
      = some { r with
          currentChapter := ch
          currentWordIndex := wi
          lastPracticeTime := now
          totalWords := 0
          totalChapters := if r.totalWords = 0 then r.totalChapters else 0 } ∧
    (ShardedRecordManager.updateChapterLoop s dictId loop m now).mainRecords dictId m
      = some { r with
          chapterLoop := loop
          lastPracticeTime := now
          totalWords := 0
          totalChapters := if r.totalWords = 0 then r.totalChapters else 0 } := by
  have hkey : ∀ (x : DictRecord) (s' : GState), x.dictId = dictId → x.practiceMode = m →
      (ShardedRecordManager.saveMainRecord s' x).mainRecords dictId m = some x := by
    intro x s' hx1 hx2
    show (if dictId = x.dictId ∧ m = x.practiceMode then some x
      else s'.mainRecords dictId m) = some x
    rw [if_pos ⟨hx1.symm, hx2.symm⟩]
  obtain ⟨rid, rname, rtw, rtc, rcc, rcwi, rpm, rcl, rlt, rct⟩ := r
  dsimp only at hid hm
  subst hid
  subst hm
  by_cases h0 : rtw = 0
  · subst h0
    have hload := (loadMainRecord_cases s rid "" 0 rpm now _ h).1 rfl
    constructor
    · simp only [ShardedRecordManager.updateCurrentPosition]
      rw [hload]
      exact hkey _ _ rfl rfl
    · simp only [ShardedRecordManager.updateChapterLoop]
      rw [hload]
      exact hkey _ _ rfl rfl
  · have hload := (loadMainRecord_cases s rid "" 0 rpm now _ h).2 h0
    constructor
    · simp only [ShardedRecordManager.updateCurrentPosition]
      rw [hload, if_neg h0]
      exact hkey _ _ rfl rfl
    · simp only [ShardedRecordManager.updateChapterLoop]
      rw [hload, if_neg h0]
      exact hkey _ _ rfl rfl

/-- Witness for the amended C2 on the stored 120-word record: the
position update keeps `dictId`, `dictName`, `practiceMode`, `chapterLoop`
and `createdTime` while zeroing `totalWords`/`totalChapters`, and the
loop update keeps the position fields. -/
theorem position_and_loop_frame_witness :
    ((ShardedRecordManager.updateCurrentPosition mainState120 "dict1" 2 3
        PracticeMode.normal "T1").mainRecords "dict1" PracticeMode.normal
      = some { mainRecord120 with
          currentChapter := 2
          currentWordIndex := 3
          lastPracticeTime := "T1"
          totalWords := 0
          totalChapters := if mainRecord120.totalWords = 0 then
            mainRecord120.totalChapters else 0 }) ∧
    ((ShardedRecordManager.updateChapterLoop mainState120 "dict1" false
        PracticeMode.normal "T1").mainRecords "dict1" PracticeMode.normal
      = some { mainRecord120 with
          chapterLoop := false
          lastPracticeTime := "T1"
          totalWords := 0
          totalChapters := if mainRecord120.totalWords = 0 then
            mainRecord120.totalChapters else 0 }) :=
  position_and_loop_frame mainState120 "dict1" 2 3 false PracticeMode.normal "T1"
    mainRecord120 rfl rfl rfl

/-! Helper lemmas about the day index flag update. -/

/-- `find?` locates the first entry carrying the date. -/
lemma find?_first_date (d : String) (e : DayIndexEntry) (l₂ : List DayIndexEntry) :
    ∀ l₁ : List DayIndexEntry, e.date = d → (∀ f ∈ l₁, f.date ≠ d) →
      (l₁ ++ e :: l₂).find? (fun r => r.date == d) = some e := by
  intro l₁
  induction l₁ with
  | nil =>
      intro he _
      simp [List.find?, he]
  | cons x xs ih =>
      intro he hnot
      have hx : (x.date == d) = false := by
        simpa using hnot x (List.mem_cons_self _ _)
      rw [List.cons_append, List.find?_cons, hx]
      exact ih he fun f hf => hnot f (List.mem_cons_of_mem _ hf)

/-- `setFirstAnalysisFlag` rewrites exactly the first entry carrying the
date. -/
lemma setFirstAnalysisFlag_append (d : String) (g : Bool) (e : DayIndexEntry)
    (l₂ : List DayIndexEntry) :
    ∀ l₁ : List DayIndexEntry, e.date = d → (∀ f ∈ l₁, f.date ≠ d) →
      DayRecordManager.setFirstAnalysisFlag (l₁ ++ e :: l₂) d g =
        l₁ ++ { e with analysisGenerated := g } :: l₂ := by
  intro l₁
  induction l₁ with
  | nil =>
      intro he _
      rw [List.nil_append, DayRecordManager.setFirstAnalysisFlag, if_pos he,
        List.nil_append]
  | cons x xs ih =>
      intro he hnot
      rw [List.cons_append, DayRecordManager.setFirstAnalysisFlag,
        if_neg (hnot x (List.mem_cons_self _ _)), List.cons_append,
        ih he fun f hf => hnot f (List.mem_cons_of_mem _ hf)]

/-- C9: `setAnalysisGenerated` is a no-op when the day index carries no
entry for the date — the store (index included) is returned unchanged and
nothing is persisted; when an entry exists, exactly the first entry for
the date has its `analysisGenerated` flag replaced and every other entry
(and every other store key) is unchanged. -/
theorem setAnalysisGenerated_spec (s : GState) (d : String) (g : Bool) :
    ((∀ e ∈ s.totalRecords.getD [], e.date ≠ d) →
      DayRecordManager.setAnalysisGenerated s d g = s) ∧
    (∀ l₁ e l₂, s.totalRecords = some (l₁ ++ e :: l₂) → e.date = d →
      (∀ f ∈ l₁, f.date ≠ d) →
      DayRecordManager.setAnalysisGenerated s d g =
        { s with totalRecords := some (l₁ ++ { e with analysisGenerated := g } :: l₂) }) := by
  constructor
  · intro hall
    have hnone : (s.totalRecords.getD []).find? (fun r => r.date == d) = none := by
      rw [List.find?_eq_none]
      intro x hx
      simpa using hall x hx
    simp only [DayRecordManager.setAnalysisGenerated]
    rw [hnone]
  · intro l₁ e l₂ hl he hnot
    have hfind : (s.totalRecords.getD []).find? (fun r => r.date == d) = some e := by
      rw [hl, Option.getD_some]
      exact find?_first_date d e l₂ l₁ he hnot
    simp only [DayRecordManager.setAnalysisGenerated]
    rw [hfind, hl, Option.getD_some,
      setFirstAnalysisFlag_append d g e l₂ l₁ he hnot]

/-- Witness for C9 on a two-day index: flagging an unindexed date returns
the store untouched, and flagging `2024-01-02` rewrites exactly that
entry. -/
theorem setAnalysisGenerated_spec_witness :
    DayRecordManager.setAnalysisGenerated twoDayIndexState "2024-03-03" true
      = twoDayIndexState ∧
    DayRecordManager.setAnalysisGenerated twoDayIndexState "2024-01-02" true
      = { twoDayIndexState with totalRecords := some [⟨"2024-01-01", false⟩, ⟨"2024-01-02", true⟩] } := by
  constructor
  · exact (setAnalysisGenerated_spec twoDayIndexState "2024-03-03" true).1 (by decide)
  · exact (setAnalysisGenerated_spec twoDayIndexState "2024-01-02" true).2
      [⟨"2024-01-01", false⟩] ⟨"2024-01-02", false⟩ [] rfl rfl (by decide)

/-- Setting the day-index flag never touches the analysis reports. -/
lemma analyses_setAnalysisGenerated (s : GState) (d : String) (g : Bool) :
    (DayRecordManager.setAnalysisGenerated s d g).analyses = s.analyses := by
  simp only [DayRecordManager.setAnalysisGenerated]
  cases (s.totalRecords.getD []).find? (fun r => r.date == d) <;> rfl

/-- C10: `generateAnalysis` on a date with no day activity record in
either mode still persists a report — with `normalMode` and
`dictationMode` both null and an all-zero summary — and still flags the
date via `setAnalysisGenerated(date, true)`. -/
theorem generateAnalysis_empty_day (s : GState) (date now : String)
    (dictDetails : String → Option (String × Nat))
    (h1 : s.dayRecords date PracticeMode.normal = none)
    (h2 : s.dayRecords date PracticeMode.dictation = none) :
    (DayAnalysisManager.generateAnalysis s date now dictDetails).analyses date =
      some { date := date, generatedAt := now, normalMode := none, dictationMode := none,
             summary := { totalDicts := 0, totalChapters := 0, totalWords := 0, dicts := [] } } ∧
    DayAnalysisManager.generateAnalysis s date now dictDetails =
      DayRecordManager.setAnalysisGenerated
        { s with analyses := fun x =>
            if x = date then
              some { date := date, generatedAt := now, normalMode := none,
                     dictationMode := none,
                     summary := { totalDicts := 0, totalChapters := 0,
                                  totalWords := 0, dicts := [] } }
            else s.analyses x }
        date true := by
  have hgen : DayAnalysisManager.generateAnalysis s date now dictDetails =
      DayRecordManager.setAnalysisGenerated
        { s with analyses := fun x =>
            if x = date then
              some { date := date, generatedAt := now, normalMode := none,
                     dictationMode := none,
                     summary := { totalDicts := 0, totalChapters := 0,
                                  totalWords := 0, dicts := [] } }
            else s.analyses x }
        date true := by
    simp only [DayAnalysisManager.generateAnalysis]
    rw [h1, h2]
    rfl
  refine ⟨?_, hgen⟩
  rw [hgen, analyses_setAnalysisGenerated]
  simp

/-- Witness for C10 on the empty store: generating an analysis for a day
that has no activity stores the null/zero report. -/
theorem generateAnalysis_empty_day_witness :
    (DayAnalysisManager.generateAnalysis GState.empty "2024-01-01" "T0"
        (fun _ => none)).analyses "2024-01-01" =
      some { date := "2024-01-01", generatedAt := "T0", normalMode := none,
             dictationMode := none,
             summary := { totalDicts := 0, totalChapters := 0, totalWords := 0,
                          dicts := [] } } :=
  (generateAnalysis_empty_day GState.empty "2024-01-01" "T0" (fun _ => none)
    rfl rfl).1

/-! Helper lemmas about the daily activity log and the day index. -/

/-- Updating the day index never touches the day records. -/
lemma dayRecords_updateTotalRecords (s : GState) (x : String) :
    (DayRecordManager.updateTotalRecords s x).dayRecords = s.dayRecords := by
  simp only [DayRecordManager.updateTotalRecords]
  cases (s.totalRecords.getD []).find? (fun r => r.date == x) <;> rfl

/-- Setting the day-index flag never touches the day records. -/
lemma dayRecords_setAnalysisGenerated (s : GState) (x : String) (g : Bool) :
    (DayRecordManager.setAnalysisGenerated s x g).dayRecords = s.dayRecords := by
  simp only [DayRecordManager.setAnalysisGenerated]
  cases (s.totalRecords.getD []).find? (fun r => r.date == x) <;> rfl

/-- Replacing a flag keeps every date present in the index. -/
lemma indexHas_setFirstAnalysisFlag (x : String) (g : Bool) (d : String) :
    ∀ l : List DayIndexEntry, (∃ e ∈ l, e.date = d) →
      ∃ e ∈ DayRecordManager.setFirstAnalysisFlag l x g, e.date = d := by
  intro l
  induction l with
  | nil =>
      intro h
      simp at h
  | cons y ys ih =>
      intro h
      obtain ⟨e, he, hed⟩ := h
      rw [DayRecordManager.setFirstAnalysisFlag]
      by_cases hy : y.date = x
      · rw [if_pos hy]
        rcases List.mem_cons.mp he with rfl | he'
        · exact ⟨{ e with analysisGenerated := g }, List.mem_cons_self _ _, hed⟩
        · exact ⟨e, List.mem_cons_of_mem _ he', hed⟩
      · rw [if_neg hy]
        rcases List.mem_cons.mp he with rfl | he'
        · exact ⟨e, List.mem_cons_self _ _, hed⟩
        · obtain ⟨f, hf, hfd⟩ := ih ⟨e, he', hed⟩
          exact ⟨f, List.mem_cons_of_mem _ hf, hfd⟩

/-- Updating the day index keeps every date already present. -/
lemma indexHas_mono_updateTotalRecords (s : GState) (x d : String)
    (h : ∃ e ∈ s.totalRecords.getD [], e.date = d) :
    ∃ e ∈ (DayRecordManager.updateTotalRecords s x).totalRecords.getD [], e.date = d := by
  simp only [DayRecordManager.updateTotalRecords]
  cases hf : (s.totalRecords.getD []).find? (fun r => r.date == x) with
  | some v => exact h
  | none =>
      obtain ⟨e, he, hed⟩ := h
      exact ⟨e, List.mem_append_left _ he, hed⟩

/-- Setting a flag keeps every date already present in the index. -/
lemma indexHas_mono_setAnalysisGenerated (s : GState) (x : String) (g : Bool)
    (d : String) (h : ∃ e ∈ s.totalRecords.getD [], e.date = d) :
    ∃ e ∈ (DayRecordManager.setAnalysisGenerated s x g).totalRecords.getD [], e.date = d := by
  simp only [DayRecordManager.setAnalysisGenerated]
  cases hf : (s.totalRecords.getD []).find? (fun r => r.date == x) with
  | some v => exact indexHas_setFirstAnalysisFlag x g d _ h
  | none => exact h

/-- Creating the day record keeps every date already present in the
index. -/
lemma indexHas_mono_createDayRecordFile (s : GState) (m : PracticeMode)
    (date d : String) (h : ∃ e ∈ s.totalRecords.getD [], e.date = d) :
    ∃ e ∈ (DayRecordManager.createDayRecordFile s m date).totalRecords.getD [],
      e.date = d := by
  simp only [DayRecordManager.createDayRecordFile]
  cases hr : s.dayRecords date m with
  | some v => exact h
  | none => exact indexHas_mono_updateTotalRecords _ date d h

/-- After `createDayRecordFile` the index contains today's date. -/
lemma indexHas_after_createDayRecordFile (s : GState) (m : PracticeMode)
    (date : String) (hInv : DayInv s) :
    ∃ e ∈ (DayRecordManager.createDayRecordFile s m date).totalRecords.getD [],
      e.date = date := by
  simp only [DayRecordManager.createDayRecordFile]
  cases hr : s.dayRecords date m with
  | some v =>
      exact hInv date m (by rw [hr]; rfl)
  | none =>
      simp only [DayRecordManager.updateTotalRecords]
      cases hf : (s.totalRecords.getD []).find? (fun r => r.date == date) with
      | some f =>
          have hfd : f.date = date := by simpa using List.find?_some hf
          exact ⟨f, List.mem_of_find?_eq_some hf, hfd⟩
      | none =>
          refine ⟨{ date := date, analysisGenerated := false }, ?_, rfl⟩
          exact List.mem_append_right _ (List.mem_cons_self _ _)

/-- `createDayRecordFile` preserves the day/index invariant. -/
lemma dayInv_createDayRecordFile (s : GState) (m : PracticeMode) (date : String)
    (hInv : DayInv s) : DayInv (DayRecordManager.createDayRecordFile s m date) := by
  intro d' m' hsome
  by_cases hd : d' = date
  · subst hd
    exact indexHas_after_createDayRecordFile s m d' hInv
  · have hrec : (DayRecordManager.createDayRecordFile s m date).dayRecords d' m'
        = s.dayRecords d' m' := by
      simp only [DayRecordManager.createDayRecordFile]
      cases hr : s.dayRecords date m with
      | some v => rfl
      | none =>
          rw [dayRecords_updateTotalRecords]
          exact if_neg fun hk => hd hk.1
    rw [hrec] at hsome
    exact indexHas_mono_createDayRecordFile s m date d' (hInv d' m' hsome)

/-- `DayRecordManager.recordWordPractice` preserves the day/index
invariant provided the index already carries the event's date. -/
lemma dayInv_dayRecordWordPractice (s : GState) (dictId dictName : String)
    (n : Nat) (word : String) (isCorrect : Bool) (mode : PracticeMode)
    (date now : String) (details : WordDetails) (hInv : DayInv s)
    (hidx : ∃ e ∈ s.totalRecords.getD [], e.date = date) :
    DayInv (DayRecordManager.recordWordPractice s dictId dictName n word
      isCorrect mode date now details) := by
  intro d' m' hsome
  show ∃ e ∈ s.totalRecords.getD [], e.date = d'
  by_cases hk : d' = date ∧ m' = mode
  · rw [hk.1]
    exact hidx
  · have hrec : (DayRecordManager.recordWordPractice s dictId dictName n word
        isCorrect mode date now details).dayRecords d' m' = s.dayRecords d' m' :=
      if_neg hk
    rw [hrec] at hsome
    exact hInv d' m' hsome

/-- `setAnalysisGenerated` preserves the day/index invariant. -/
lemma dayInv_setAnalysisGenerated (s : GState) (x : String) (g : Bool)
    (hInv : DayInv s) : DayInv (DayRecordManager.setAnalysisGenerated s x g) := by
  intro d' m' hsome
  rw [dayRecords_setAnalysisGenerated] at hsome
  exact indexHas_mono_setAnalysisGenerated s x g d' (hInv d' m' hsome)

/-- Running a disciplined suffix from a state satisfying the invariant
(and whose index carries every date already ensured) keeps the
invariant. -/
lemma dayInv_runDayOps : ∀ (ops : List DayOp) (created : List String) (s : GState),
    disciplinedFrom ops created = true → DayInv s →
    (∀ d ∈ created, ∃ e ∈ s.totalRecords.getD [], e.date = d) →
    DayInv (runDayOps s ops) := by
  intro ops
  induction ops with
  | nil =>
      intro _ s _ hInv _
      exact hInv
  | cons op rest ih =>
      intro created s hdis hInv hcreated
      cases op with
      | create m date =>
          have hdis' : disciplinedFrom rest (date :: created) = true := hdis
          apply ih (date :: created) _ hdis'
            (dayInv_createDayRecordFile s m date hInv)
          intro d hd
          rcases List.mem_cons.mp hd with rfl | hd'
          · exact indexHas_after_createDayRecordFile s m d hInv
          · exact indexHas_mono_createDayRecordFile s m date d (hcreated d hd')
      | practice dictId dictName n word isCorrect mode date now details =>
          rw [disciplinedFrom, Bool.and_eq_true] at hdis
          have hdate : date ∈ created := List.mem_of_elem_eq_true hdis.1
          apply ih created _ hdis.2
            (dayInv_dayRecordWordPractice s dictId dictName n word isCorrect mode
              date now details hInv (hcreated date hdate))
          intro d hd
          exact hcreated d hd
      | setFlag x g =>
          have hdis' : disciplinedFrom rest created = true := hdis
          apply ih created _ hdis' (dayInv_setAnalysisGenerated s x g hInv)
          intro d hd
          exact indexHas_mono_setAnalysisGenerated s x g d (hcreated d hd)

/-- The empty store satisfies the day/index invariant. -/
lemma dayInv_empty : DayInv GState.empty := by
  intro d m h
  simp [GState.empty] at h

/-- C4 counterexample: a single `recordWordPractice` on a fresh day
creates the day activity record for `2024-01-01` but never touches the
day index, which stays absent — so a day record exists with no
corresponding index entry. -/
theorem dayIndex_invariant_counterexample :
    ((runDayOps GState.empty strayDayOps).dayRecords "2024-01-01"
        PracticeMode.normal).isSome = true ∧
    (runDayOps GState.empty strayDayOps).totalRecords = none :=
  ⟨rfl, rfl⟩

/-- C4 (amended): in every state reachable from the empty store by a
disciplined sequence of daily-log operations — one in which every
`recordWordPractice` for a date is preceded by a `createDayRecordFile`
for that date, as the extension guarantees — every date having a day
activity record in either mode has an entry in the day index. -/
theorem dayIndex_invariant_disciplined (ops : List DayOp)
    (h : disciplined ops = true) :
    ∀ d m, ((runDayOps GState.empty ops).dayRecords d m).isSome = true →
      ∃ e ∈ (runDayOps GState.empty ops).totalRecords.getD [], e.date = d :=
  fun d m hsome =>
    dayInv_runDayOps ops [] GState.empty h dayInv_empty (by simp) d m hsome

/-- Witness for the amended C4: the disciplined sequence `goodDayOps`
creates records in both modes and the date ends up indexed. -/
theorem dayIndex_invariant_disciplined_witness :
    disciplined goodDayOps = true ∧
    ((runDayOps GState.empty goodDayOps).dayRecords "2024-01-01"
        PracticeMode.dictation).isSome = true ∧
    (∃ e ∈ (runDayOps GState.empty goodDayOps).totalRecords.getD [],
      e.date = "2024-01-01") :=
  ⟨rfl, rfl, dayIndex_invariant_disciplined goodDayOps rfl "2024-01-01"
    PracticeMode.dictation rfl⟩

/-- C5: `checkAndGenerateMissingAnalysis` invokes `generateAnalysis` for
no date exactly when the index has no unprocessed entry dated before
today; otherwise it invokes it for exactly one date — an unprocessed past
date of the index that is the most recent among all unprocessed past
dates — and processes nothing else. -/
theorem checkAndGenerate_most_recent (today : String) (idx : List DayIndexEntry) :
    (checkAndGenerateMissingAnalysis today idx = none ↔
      ∀ e ∈ idx, strLt e.date today = true → e.analysisGenerated = true) ∧
    (∀ d, checkAndGenerateMissingAnalysis today idx = some d →
      (∃ e ∈ idx, e.date = d ∧ strLt d today = true ∧ e.analysisGenerated = false) ∧
      ∀ f ∈ idx, strLt f.date today = true → f.analysisGenerated = false →
        strLt d f.date = false) := by
  constructor
  · rw [checkAndGenerateMissingAnalysis, Option.map_eq_none', List.find?_eq_none]
    constructor
    · intro hnone e he hlt
      have := hnone e (mem_sortDescByDate.mpr he)
      simpa [hlt] using this
    · intro hall e he
      have hgen := hall e (mem_sortDescByDate.mp he)
      intro hcontra
      rw [Bool.and_eq_true, Bool.not_eq_true'] at hcontra
      rw [hgen hcontra.1] at hcontra
      exact absurd hcontra.2 (by simp)
  · intro d hd
    rw [checkAndGenerateMissingAnalysis, Option.map_eq_some'] at hd
    obtain ⟨e, hfind, hed⟩ := hd
    have hq := List.find?_some hfind
    rw [Bool.and_eq_true, Bool.not_eq_true'] at hq
    have hmem : e ∈ idx := mem_sortDescByDate.mp (List.mem_of_find?_eq_some hfind)
    constructor
    · exact ⟨e, hmem, hed, hed ▸ hq.1, hq.2⟩
    · intro f hf hflt hfgen
      have hqf : (strLt f.date today && !f.analysisGenerated) = true := by
        rw [Bool.and_eq_true, Bool.not_eq_true']
        exact ⟨hflt, hfgen⟩
      have := find?_max_of_pairwise _ (sortDescByDate idx)
        (pairwise_sortDescByDate idx) e hfind f (mem_sortDescByDate.mpr hf) hqf
      rw [hed] at this
      exact this

/-- Witness for C5 on the specification scenario: with unprocessed
entries for `2024-01-01` and `2024-01-02` and today `2024-05-01`, exactly
`2024-01-02` is processed and every unprocessed past entry is at most
`2024-01-02`. -/
theorem checkAndGenerate_most_recent_witness :
    checkAndGenerateMissingAnalysis "2024-05-01" scenarioIndex = some "2024-01-02" ∧
    (∃ e ∈ scenarioIndex, e.date = "2024-01-02" ∧
      strLt "2024-01-02" "2024-05-01" = true ∧ e.analysisGenerated = false) ∧
    (∀ f ∈ scenarioIndex, strLt f.date "2024-05-01" = true →
      f.analysisGenerated = false → strLt "2024-01-02" f.date = false) :=
  ⟨rfl,
    ((checkAndGenerate_most_recent "2024-05-01" scenarioIndex).2 "2024-01-02" rfl).1,
    ((checkAndGenerate_most_recent "2024-05-01" scenarioIndex).2 "2024-01-02" rfl).2⟩
